import Mathlib

/-!
# B-Tree index: shallow embedding and verification

Shallow embedding of the B-Tree implementation in
`src/python/src/database_mechanics/indexing/btree/` (files `key_value_pair.py`,
`btree_node.py`, `btree_index.py`).

Modelling conventions:
* Keys are `Nat` (the code only requires a strict total order on keys).
* Python values may be `None`; a stored value is modelled as `PyVal := Option Nat`
  with `none` playing the role of Python's `None`.  Methods that return
  `Optional[V]` therefore return `PyVal` directly: Python cannot distinguish a
  stored `None` from absence, and neither does the model.
* In-place mutation of nodes becomes functional update; Python's aliasing of a
  child inside its parent's `children` list becomes explicit child replacement
  (`set_child`) at the child's index.
* Unbounded `while` loops / recursion on the tree are modelled with an explicit
  fuel parameter; `none` as the outer result means the fuel ran out (used only
  as a non-termination sentinel, never reached in the runs proved below).
  Bounded list-draining loops (`while len(...) > i`) are modelled with a step
  count equal to the list length, which always dominates the iteration count.
* Python `list.pop(i)` / `list[i]` raise `IndexError` out of range; the model
  totalises them with `getD` and a default.  Every computation examined below
  stays in range, matching the code's own bounds guards.
-/

/-- A Python value: `none` models Python's `None`.  Keys are plain `Nat`
(the code only needs a strict total order on keys). -/
abbrev PyVal := Option Nat

/-- Python `KeyValuePair` from `key_value_pair.py`: an immutable key and a mutable value.
(The real constructor's behaviour, including its `super.__setattr__` fault, is
modelled separately by `KeyValuePair.init` below.) -/
structure KeyValuePair where
  key : Nat
  value : PyVal
deriving DecidableEq

instance : Inhabited KeyValuePair := ⟨⟨0, none⟩⟩

/-- Python `BTreeNode` from `btree_node.py`: a `min_degree`, a leaf flag, a sorted
sequence of key/value pairs and (for internal nodes) a list of children. -/
inductive BTreeNode : Type where
  | mk (min_degree : Nat) (leafFlag : Bool) (kvs : List KeyValuePair)
      (children : List BTreeNode)

instance : Inhabited BTreeNode := ⟨.mk 0 true [] []⟩

namespace BTreeNode

def min_degree : BTreeNode → Nat
  | .mk d _ _ _ => d

def is_leaf : BTreeNode → Bool
  | .mk _ l _ _ => l

def kvs : BTreeNode → List KeyValuePair
  | .mk _ _ ks _ => ks

def children : BTreeNode → List BTreeNode
  | .mk _ _ _ cs => cs

/-- Python `__len__`: number of key/value pairs. -/
def len (n : BTreeNode) : Nat := n.kvs.length

/-- The keys of a node, in stored order. -/
def keys (n : BTreeNode) : List Nat := n.kvs.map (·.key)

/-- Python `get_key(index)`. -/
def get_key (n : BTreeNode) (i : Nat) : Nat := (n.kvs.getD i default).key

/-- Python `get_value(index)`. -/
def get_value (n : BTreeNode) (i : Nat) : PyVal := (n.kvs.getD i default).value

/-- Python `get_child(index)`. -/
def get_child (n : BTreeNode) (i : Nat) : BTreeNode := n.children.getD i default

/-- Python `is_full()`: `len(self._key_value_pairs) >= 2*t - 1`. -/
def is_full (n : BTreeNode) : Bool := n.len ≥ 2 * n.min_degree - 1

/-- Functional update of the pair list, keeping the other fields. -/
def withKvs : BTreeNode → List KeyValuePair → BTreeNode
  | .mk d l _ cs, ks => .mk d l ks cs

/-- Functional update of the children list, keeping the other fields. -/
def withChildren : BTreeNode → List BTreeNode → BTreeNode
  | .mk d l ks _, cs => .mk d l ks cs

end BTreeNode

/-- The loop of Python's `bisect.bisect_left(a, x)` (module `bisect`):
`while lo < hi: mid = (lo+hi)//2; if a[mid] < x: lo = mid+1 else: hi = mid`.
The fuel dominates `hi - lo`, which bounds the iteration count. -/
def bisectLoop : Nat → List Nat → Nat → Nat → Nat → Nat
  | 0, _, _, lo, _ => lo
  | fuel + 1, a, x, lo, hi =>
    if lo < hi then
      let mid := (lo + hi) / 2
      if a.getD mid 0 < x then bisectLoop fuel a x (mid + 1) hi
      else bisectLoop fuel a x lo mid
    else lo

/-- Python `bisect.bisect_left(a, x)` over the whole list. -/
def bisect_left (a : List Nat) (x : Nat) : Nat := bisectLoop a.length a x 0 a.length

namespace BTreeNode

/-- Python `insert_key_value(key, value)`: insert a fresh pair at the position found by
`bisect.bisect_left` over the node's keys. -/
def insert_key_value (n : BTreeNode) (k : Nat) (v : PyVal) : BTreeNode :=
  let pos := bisect_left n.keys k
  n.withKvs (n.kvs.insertIdx pos ⟨k, v⟩)

/-- Python `find_key_index(key)`: `-1` on an empty node; otherwise the `bisect_left`
position if it holds an exact match, else `-(position + 1)`. -/
def find_key_index (n : BTreeNode) (k : Nat) : Int :=
  if n.kvs = [] then -1
  else
    let ks := n.keys
    let position := bisect_left ks k
    if position < ks.length ∧ ks.getD position 0 = k then (position : Int)
    else -((position : Int) + 1)

/-- Python `get_child_index(key)`: `find_key_index + 1` on an exact match, else the
decoded insertion point. -/
def get_child_index (n : BTreeNode) (k : Nat) : Int :=
  let ki := n.find_key_index k
  if ki ≥ 0 then ki + 1 else -(ki + 1)

/-- Python `insert_child(index, child)` (Python `list.insert`). -/
def insert_child (n : BTreeNode) (i : Nat) (c : BTreeNode) : BTreeNode :=
  n.withChildren (n.children.insertIdx i c)

/-- Python `remove_key_value_pair(index)` (Python `list.pop(index)`): the removed pair
together with the updated node. -/
def remove_key_value_pair (n : BTreeNode) (i : Nat) : KeyValuePair × BTreeNode :=
  (n.kvs.getD i default, n.withKvs (n.kvs.eraseIdx i))

/-- Python `remove_child(index)`: the removed child together with the updated node. -/
def remove_child (n : BTreeNode) (i : Nat) : BTreeNode × BTreeNode :=
  (n.children.getD i default, n.withChildren (n.children.eraseIdx i))

/-- Python `current.get_key_value_pair(i).value = v`: mutate the value of the pair at
`i` in place, keeping its key. -/
def set_value (n : BTreeNode) (i : Nat) (v : PyVal) : BTreeNode :=
  n.withKvs (n.kvs.set i ⟨(n.kvs.getD i default).key, v⟩)

/-- Replace the child at `i` (the functional image of Python's in-place
mutation of an aliased child). -/
def set_child (n : BTreeNode) (i : Nat) (c : BTreeNode) : BTreeNode :=
  n.withChildren (n.children.set i c)

end BTreeNode

/-- The pair-draining loop `while len(src) > mi: dst.insert_key_value(src.pop(mi))`
used by `_split_node` (with `mi = t-1`) and by both merges (with `mi = 0`).
`steps` is the initial `len(src)`, which dominates the iteration count. -/
def movePairs : Nat → BTreeNode → BTreeNode → Nat → BTreeNode × BTreeNode
  | 0, src, dst, _ => (src, dst)
  | steps + 1, src, dst, mi =>
    if src.len > mi then
      let (kv, src') := src.remove_key_value_pair mi
      movePairs steps src' (dst.insert_key_value kv.key kv.value) mi
    else (src, dst)

/-- The child-draining loop
`while len(src.children) > mi: dst.insert_child(len(dst.children), src.remove_child(mi))`
used by `_split_node` (with `mi = t`) and by both merges (with `mi = 0`). -/
def moveChildren : Nat → BTreeNode → BTreeNode → Nat → BTreeNode × BTreeNode
  | 0, src, dst, _ => (src, dst)
  | steps + 1, src, dst, mi =>
    if src.children.length > mi then
      let (c, src') := src.remove_child mi
      moveChildren steps src' (dst.insert_child dst.children.length c) mi
    else (src, dst)

/-- Python `BTreeIndex._split_node(current, parent)` where `current` is the child of
`parent` at index `currentIdx`.  Returns the updated parent.

The Python function also contains a `parent is None` branch that synthesizes a
new root; both call sites (`insert`, lines 57 and 82) pass a non-`None` parent,
so that branch is dead and the root split in `insert` reaches this path with
the freshly made one-child root as `parent`. -/
def split_node (t : Nat) (current parent : BTreeNode) (currentIdx : Nat) : BTreeNode :=
  -- 1-2. remove the middle pair
  let middle_index := t - 1
  let (middle, current1) := current.remove_key_value_pair middle_index
  -- 3. fresh right node of the same leaf-ness
  let right0 : BTreeNode := .mk t current.is_leaf [] []
  -- 4. move the pairs after the middle into `right`
  let (current2, right1) := movePairs current1.len current1 right0 middle_index
  -- 5. internal node: move the children after the middle as well
  let (current3, right2) :=
    if !current.is_leaf then
      moveChildren current2.children.length current2 right1 (middle_index + 1)
    else (current2, right1)
  -- 7. push the middle pair into the parent and hang `right` just after it
  let parent1 := parent.set_child currentIdx current3
  let parent2 := parent1.insert_key_value middle.key middle.value
  let insertion_index := parent2.find_key_index middle.key + 1
  parent2.insert_child insertion_index.toNat right2

/-- Python `BTreeIndex` from `btree_index.py`: the minimum degree, the root node and
the tracked size.  (The real `__init__` is modelled by `BTreeIndex.init`;
`mkTree` below builds the state `__init__` is intended to produce.) -/
structure BTreeIndex where
  min_degree : Nat
  root : BTreeNode
  size : Nat

/-- The intended result of `BTreeIndex(min_degree)`: an empty leaf root. -/
def mkTree (t : Nat) : BTreeIndex := ⟨t, .mk t true [] [], 0⟩

namespace BTreeIndex

/-- Python `is_empty()`: `self._size == 0`. -/
def is_empty (tr : BTreeIndex) : Bool := tr.size = 0

/-- The `while True` descent of `search`; outer `none` = fuel exhausted. -/
def searchLoop : Nat → BTreeNode → Nat → Option PyVal
  | 0, _, _ => none
  | fuel + 1, current, k =>
    let index := current.find_key_index k
    if index ≥ 0 then some (current.get_value index.toNat)
    else if current.is_leaf then some none
    else searchLoop fuel (current.get_child (current.get_child_index k).toNat) k

/-- Python `search(key)`: Python `None` (= no entry, or a stored `None`) is the inner
`none`. -/
def search (tr : BTreeIndex) (k : Nat) : Option PyVal :=
  if tr.is_empty then some none
  else searchLoop (tr.size + 1) tr.root k

/-- Python `__contains__`: `self.search(key) is not None`. -/
def contains (tr : BTreeIndex) (k : Nat) : Option Bool :=
  (tr.search k).map Option.isSome

/-- The `while True` descent of `insert` (step 3 of the algorithm): returns the
updated subtree root, the Python return value, and whether the size grew. -/
def insertLoop (t : Nat) : Nat → BTreeNode → Nat → PyVal →
    Option (BTreeNode × PyVal × Bool)
  | 0, _, _, _ => none
  | fuel + 1, current, k, v =>
    let key_index := current.find_key_index k
    if key_index ≥ 0 then
      -- key already present: update the value, return the old one
      some (current.set_value key_index.toNat v, current.get_value key_index.toNat, false)
    else if current.is_leaf then
      -- leaf: insert here (guaranteed space), size grows
      some (current.insert_key_value k v, none, true)
    else
      -- internal: pick the child, split it first if full, then descend
      let child_index := (current.get_child_index k).toNat
      let child := current.get_child child_index
      let st :=
        if child.is_full then
          let current' := split_node t child current child_index
          let ci' := (current'.get_child_index k).toNat
          (current', ci', current'.get_child ci')
        else (current, child_index, child)
      match insertLoop t fuel st.2.2 k v with
      | none => none
      | some (newChild, ret, grew) =>
        some (st.1.set_child st.2.1 newChild, ret, grew)

/-- Python `insert(key, value)`: empty-tree fast path, proactive root split, then the
descent loop.  Returns the updated tree and the Python return value. -/
def insert (tr : BTreeIndex) (k : Nat) (v : PyVal) : Option (BTreeIndex × PyVal) :=
  if tr.is_empty then
    some ({ tr with root := tr.root.insert_key_value k v, size := tr.size + 1 }, none)
  else
    let tr1 :=
      if tr.root.is_full then
        let new_root : BTreeNode := .mk tr.min_degree false [] [tr.root]
        { tr with root := split_node tr.min_degree tr.root new_root 0 }
      else tr
    match insertLoop tr.min_degree (tr1.size + 1) tr1.root k v with
    | none => none
    | some (newRoot, ret, grew) =>
      let newSize := if grew then tr1.size + 1 else tr1.size
      some ({ tr1 with root := newRoot, size := newSize }, ret)

end BTreeIndex

/-- Python `_cannot_safely_merge(node1, node2)`:
`len(node1) + 1 + len(node2) > 2*t - 1`. -/
def cannot_safely_merge (t : Nat) (node1 node2 : BTreeNode) : Bool :=
  node1.len + 1 + node2.len > 2 * t - 1

/-- Python `_borrow_from_left_sibling(node, parent, node_index)`: rotate the parent's
separator at `node_index - 1` into `node` and the left sibling's last pair up
into the parent; for internal nodes also move the left sibling's last child to
the front of `node`'s children.  Returns the updated parent. -/
def borrow_from_left_sibling (parent : BTreeNode) (node_index : Nat) : BTreeNode :=
  let node := parent.get_child node_index
  let left_sibling := parent.get_child (node_index - 1)
  let separator_index := node_index - 1
  let (separator, parent1) := parent.remove_key_value_pair separator_index
  let (borrowed, left1) := left_sibling.remove_key_value_pair (left_sibling.len - 1)
  let parent2 := parent1.insert_key_value borrowed.key borrowed.value
  let node1 := node.insert_key_value separator.key separator.value
  let st :=
    if !node.is_leaf then
      let (rc, left2) := left1.remove_child (left1.children.length - 1)
      (node1.insert_child 0 rc, left2)
    else (node1, left1)
  (parent2.set_child (node_index - 1) st.2).set_child node_index st.1

/-- Python `_borrow_from_right_sibling(node, parent, node_index)`: the mirror image of
`borrow_from_left_sibling` with the separator at `node_index`. -/
def borrow_from_right_sibling (parent : BTreeNode) (node_index : Nat) : BTreeNode :=
  let node := parent.get_child node_index
  let right_sibling := parent.get_child (node_index + 1)
  let (separator, parent1) := parent.remove_key_value_pair node_index
  let (borrowed, right1) := right_sibling.remove_key_value_pair 0
  let parent2 := parent1.insert_key_value borrowed.key borrowed.value
  let node1 := node.insert_key_value separator.key separator.value
  let st :=
    if !node.is_leaf then
      let (lc, right2) := right1.remove_child 0
      (node1.insert_child node1.children.length lc, right2)
    else (node1, right1)
  (parent2.set_child (node_index + 1) st.2).set_child node_index st.1

/-- Python `_merge_with_left_sibling(node, parent, node_index)`: absorb the parent's
separator and all of `node` into the left sibling, then drop `node` from the
parent.  Keeps the source's bounds guards and its `_cannot_safely_merge`
borrow fallback.  Returns the updated parent. -/
def merge_with_left_sibling (t : Nat) (parent : BTreeNode) (node_index : Nat) :
    BTreeNode :=
  if node_index = 0 ∨ node_index - 1 ≥ parent.len then parent
  else
    let node := parent.get_child node_index
    let left_sibling := parent.get_child (node_index - 1)
    if cannot_safely_merge t left_sibling node ∧ left_sibling.len > t - 1 then
      borrow_from_left_sibling parent node_index
    else
      let st :=
        if node_index - 1 < parent.len then
          let (separator, parent1) := parent.remove_key_value_pair (node_index - 1)
          (parent1, left_sibling.insert_key_value separator.key separator.value)
        else (parent, left_sibling)
      let (node1, left2) := movePairs node.len node st.2 0
      let st2 :=
        if !node.is_leaf then moveChildren node1.children.length node1 left2 0
        else (node1, left2)
      let parent2 := st.1.set_child (node_index - 1) st2.2
      if node_index < parent2.children.length then (parent2.remove_child node_index).2
      else parent2

/-- Python `_merge_with_right_sibling(node, parent, node_index)`: absorb the parent's
separator and all of the right sibling into `node`, then drop the sibling. -/
def merge_with_right_sibling (t : Nat) (parent : BTreeNode) (node_index : Nat) :
    BTreeNode :=
  if node_index ≥ parent.children.length - 1 ∨ node_index ≥ parent.len then parent
  else
    let node := parent.get_child node_index
    let right_sibling := parent.get_child (node_index + 1)
    if cannot_safely_merge t node right_sibling ∧ right_sibling.len > t - 1 then
      borrow_from_right_sibling parent node_index
    else
      let st :=
        if node_index < parent.len then
          let (separator, parent1) := parent.remove_key_value_pair node_index
          (parent1, node.insert_key_value separator.key separator.value)
        else (parent, node)
      let (right1, node2) := movePairs right_sibling.len right_sibling st.2 0
      let st2 :=
        if !node.is_leaf then moveChildren right1.children.length right1 node2 0
        else (right1, node2)
      let parent2 := (st.1.set_child node_index st2.2).set_child (node_index + 1) st2.1
      if node_index + 1 < parent2.children.length then
        (parent2.remove_child (node_index + 1)).2
      else parent2

/-- The repair action `_fix_underflow` settles on (observer output of the
embedding; the Python function communicates it only through its effect). -/
inductive UAction : Type where
  | noAction | borrowLeft | borrowRight | mergeLeft | mergeRight
deriving DecidableEq

/-- Python `_fix_underflow(parent, child_index)`: bounds guards, the defensive
non-underflow guard, then borrow-left / borrow-right / merge-left /
merge-right in that order.  Returns the updated parent and the chosen
action. -/
def fix_underflow (t : Nat) (parent : BTreeNode) (child_index : Nat) :
    BTreeNode × UAction :=
  if child_index ≥ parent.children.length ∨ parent.len = 0 then (parent, .noAction)
  else
    let child := parent.get_child child_index
    if child.len ≥ t - 1 then (parent, .noAction)
    else if child_index > 0 ∧ (parent.get_child (child_index - 1)).len > t - 1 then
      (borrow_from_left_sibling parent child_index, .borrowLeft)
    else if child_index < parent.children.length - 1 ∧
        (parent.get_child (child_index + 1)).len > t - 1 then
      (borrow_from_right_sibling parent child_index, .borrowRight)
    else if child_index > 0 ∧ parent.len > child_index - 1 then
      (merge_with_left_sibling t parent child_index, .mergeLeft)
    else if child_index < parent.children.length - 1 ∧ parent.len > child_index then
      (merge_with_right_sibling t parent child_index, .mergeRight)
    else (parent, .noAction)

/-- The successor descent of `_delete_from_node`: from the node itself, follow
child 0 while not a leaf, stopping early when a node has no children. -/
def succDescend : Nat → BTreeNode → Option BTreeNode
  | 0, _ => none
  | fuel + 1, n =>
    if n.is_leaf then some n
    else if n.children.length = 0 then some n
    else succDescend fuel (n.get_child 0)

/-- The predecessor descent: follow the last child while not a leaf. -/
def predDescend : Nat → BTreeNode → Option BTreeNode
  | 0, _ => none
  | fuel + 1, n =>
    if n.is_leaf then some n
    else if n.children.length = 0 then some n
    else predDescend fuel (n.get_child (n.children.length - 1))

namespace BTreeIndex

/-- Python `_delete_from_node(current, key)`: returns the updated subtree root, the
Python return value, and the number of `self._size -= 1` decrements performed
in the call (0 or 1). -/
def delete_from_node (t : Nat) : Nat → BTreeNode → Nat →
    Option (BTreeNode × PyVal × Nat)
  | 0, _, _ => none
  | fuel + 1, current, k =>
    let key_index := current.find_key_index k
    if key_index ≥ 0 then
      let ki := key_index.toNat
      if current.is_leaf then
        -- simple leaf deletion
        let (kv, current1) := current.remove_key_value_pair ki
        some (current1, kv.value, 1)
      else
        let original_value := current.get_value ki
        -- successor: leftmost pair of child ki+1 (early break on no children)
        match succDescend (fuel + 1) (current.get_child (ki + 1)) with
        | none => none
        | some successor_node =>
          if successor_node.len > 0 then
            let sk := successor_node.get_key 0
            let sv := successor_node.get_value 0
            let current1 := (current.remove_key_value_pair ki).2.insert_key_value sk sv
            match delete_from_node t fuel (current1.get_child (ki + 1)) sk with
            | none => none
            | some (child', _, dec) =>
              let current2 := current1.set_child (ki + 1) child'
              let current3 :=
                if ki + 1 < current2.children.length ∧
                    (current2.get_child (ki + 1)).len < t - 1 then
                  (fix_underflow t current2 (ki + 1)).1
                else current2
              some (current3, original_value, dec)
          else
            match predDescend (fuel + 1) (current.get_child ki) with
            | none => none
            | some predecessor_node =>
              if predecessor_node.len > 0 then
                let pk := predecessor_node.get_key (predecessor_node.len - 1)
                let pv := predecessor_node.get_value (predecessor_node.len - 1)
                let current1 :=
                  (current.remove_key_value_pair ki).2.insert_key_value pk pv
                match delete_from_node t fuel (current1.get_child ki) pk with
                | none => none
                | some (child', _, dec) =>
                  let current2 := current1.set_child ki child'
                  let current3 :=
                    if ki < current2.children.length ∧
                        (current2.get_child ki).len < t - 1 then
                      (fix_underflow t current2 ki).1
                    else current2
                  some (current3, original_value, dec)
              else
                -- both descents empty: just drop the pair
                some ((current.remove_key_value_pair ki).2, original_value, 1)
    else if !current.is_leaf then
      -- key absent here: descend, then repair the child on underflow
      let child_index := (current.get_child_index k).toNat
      match delete_from_node t fuel (current.get_child child_index) k with
      | none => none
      | some (child', result, dec) =>
        let current1 := current.set_child child_index child'
        let current2 :=
          if child_index < current1.children.length ∧
              (current1.get_child child_index).len < t - 1 then
            (fix_underflow t current1 child_index).1
          else current1
        some (current2, result, dec)
    else
      some (current, none, 0)

/-- Python `delete(key)`: empty-tree fast path, recursive delete from the root, then
root collapse when the root is an empty internal node. -/
def delete (tr : BTreeIndex) (k : Nat) : Option (BTreeIndex × PyVal) :=
  if tr.is_empty then some (tr, none)
  else
    match delete_from_node tr.min_degree (tr.size + 1) tr.root k with
    | none => none
    | some (root1, result, dec) =>
      let root2 := if root1.len = 0 ∧ !root1.is_leaf then root1.get_child 0 else root1
      some ({ tr with root := root2, size := tr.size - dec }, result)

end BTreeIndex

/-! ## Constructors as they actually execute

`KeyValuePair.__init__` (key_value_pair.py line 15) and `BTreeNode.__init__`
(btree_node.py line 18) both run `super.__setattr__("…", value)` — `super`
the class, not `super()` the proxy.  That expression resolves to the unbound
`object.__setattr__` slot wrapper, which requires three arguments
(self, name, value); called with two it raises
`TypeError: expected 2 arguments, got 1`.  So every construction that passes
the explicit validation checks still fails.  `BTreeIndex.__init__` uses the
correct `super().__setattr__` for its own field but constructs a `BTreeNode`
root (btree_index.py line 24), so it fails with the same `TypeError` for every
`min_degree >= 2`. -/

/-- The error conditions the constructors can raise. -/
inductive PyError : Type where
  | valueError
  | typeErrorSuperSetattr
deriving DecidableEq

/-- Python `KeyValuePair.__init__(key, value)` as written: `None` key raises
`ValueError`; any other key reaches `super.__setattr__("_key", key)` and
raises `TypeError`. -/
def KeyValuePair.init (key : Option Nat) (_value : PyVal) :
    Except PyError KeyValuePair :=
  match key with
  | none => .error .valueError
  | some _ => .error .typeErrorSuperSetattr

/-- Python `BTreeNode.__init__(min_degree, is_leaf)` as written: `min_degree < 2`
raises `ValueError`; otherwise `super.__setattr__("_min_degree", min_degree)`
raises `TypeError`. -/
def BTreeNode.init (min_degree : Int) (_isLeaf : Bool) : Except PyError BTreeNode :=
  if min_degree < 2 then .error .valueError
  else .error .typeErrorSuperSetattr

/-- Python `BTreeIndex.__init__(min_degree)` as written: `min_degree < 2` raises
`ValueError`; otherwise the root construction `BTreeNode(min_degree, True)`
propagates its error (or would yield the intended empty tree). -/
def BTreeIndex.init (min_degree : Int) : Except PyError BTreeIndex :=
  if min_degree < 2 then .error .valueError
  else
    match BTreeNode.init min_degree true with
    | .error e => .error e
    | .ok root => .ok ⟨min_degree.toNat, root, 0⟩

/-- The `is_leaf` property setter of `BTreeNode` (btree_node.py lines 31-33):
`def is_leaf(self, value): self.is_leaf = value`.  The assignment in the body
re-invokes the same setter with the same arguments, so the call never returns;
`none` is the non-termination sentinel for every finite fuel. -/
def is_leaf_setter : Nat → BTreeNode → Bool → Option BTreeNode
  | 0, _, _ => none
  | fuel + 1, n, v => is_leaf_setter fuel n v

/-! ## Operation sequences -/

/-- A public mutating operation. -/
inductive Op : Type where
  | ins (k : Nat) (v : PyVal)
  | del (k : Nat)

/-- Apply one operation, keeping the updated tree. -/
def applyOp (tr : BTreeIndex) : Op → Option BTreeIndex
  | .ins k v => (tr.insert k v).map (·.1)
  | .del k => (tr.delete k).map (·.1)

/-- Run a sequence of operations. -/
def runOps : BTreeIndex → List Op → Option BTreeIndex
  | tr, [] => some tr
  | tr, op :: rest => (applyOp tr op).bind (fun tr' => runOps tr' rest)

/-! ## The spec's invariant checker

Modelled from the spec: §3 invariants 1–6 and the recursive checker §8 asks
for ("write a recursive checker that walks from the root").  These definitions
follow the spec's wording, to be compared with the behaviour of the embedded
code. -/

/-- Strictly-increasing test for a key sequence (invariant 1). -/
def strictlyIncreasing : List Nat → Bool
  | [] => true
  | [_] => true
  | a :: b :: rest => a < b && strictlyIncreasing (b :: rest)

/-- Is `k` inside the open interval `(lo, hi)` (absent bound = unbounded)? -/
def inRange (lo hi : Option Nat) (k : Nat) : Bool :=
  (match lo with | none => true | some l => l < k) &&
  (match hi with | none => true | some h => k < h)

/-- Modelled from the spec: invariants 1–3 of §3 checked recursively with
separator bounds — keys strictly increasing within each node, every key of a
subtree strictly between the enclosing separators (hence no duplicates
anywhere), and `#children == #entries + 1` for every non-leaf node. -/
def rangeOk : Nat → BTreeNode → Option Nat → Option Nat → Bool
  | 0, _, _, _ => false
  | fuel + 1, n, lo, hi =>
    n.keys.all (inRange lo hi) &&
    strictlyIncreasing n.keys &&
    (if n.is_leaf then true
     else
       n.children.length = n.len + 1 &&
       (List.range n.children.length).all (fun i =>
         rangeOk fuel (n.get_child i)
           (if i = 0 then lo else some (n.keys.getD (i - 1) 0))
           (if i = n.len then hi else some (n.keys.getD i 0))))

/-- Modelled from the spec: invariant 4 of §3 — every non-root node holds
between `t-1` and `2t-1` entries, the root between 0 and `2t-1`. -/
def occupancyOk : Nat → Nat → BTreeNode → Bool → Bool
  | 0, _, _, _ => false
  | fuel + 1, t, n, isRoot =>
    (if isRoot then decide (n.len ≤ 2 * t - 1)
     else decide (t - 1 ≤ n.len ∧ n.len ≤ 2 * t - 1)) &&
    n.children.all (fun c => occupancyOk fuel t c false)

/-- The multiset of keys reachable from a node, as a list. -/
def collectKeys : Nat → BTreeNode → List Nat
  | 0, _ => []
  | fuel + 1, n => n.keys ++ (n.children.map (collectKeys fuel)).flatten

/-- The depths of all leaves below a node. -/
def leafDepths : Nat → BTreeNode → Nat → List Nat
  | 0, _, _ => []
  | fuel + 1, n, d =>
    if n.is_leaf then [d]
    else (n.children.map (fun c => leafDepths fuel c (d + 1))).flatten

/-- Are all listed depths equal? -/
def allEqual (l : List Nat) : Bool :=
  match l with
  | [] => true
  | d :: rest => rest.all (· = d)

/-- Modelled from the spec: the whole-tree checker for invariants 1–6 of §3
(invariant 5 via equal leaf depths, invariant 6 via the reachable-entry
count).  The fuel `tr.size + 1` dominates the height of every tree checked
below. -/
def specInvariantsHold (t : Nat) (tr : BTreeIndex) : Bool :=
  let fuel := tr.size + 1
  rangeOk fuel tr.root none none &&
  occupancyOk fuel t tr.root true &&
  allEqual (leafDepths fuel tr.root 0) &&
  (collectKeys fuel tr.root).length = tr.size

/-! ## Helper lemmas -/

theorem bisectLoop_eq (a : List Nat) (x m : Nat) :
    ∀ (fuel lo hi : Nat), hi - lo ≤ fuel → lo ≤ m → m ≤ hi → hi ≤ a.length →
    (∀ i, lo ≤ i → i < hi → (a.getD i 0 < x ↔ i < m)) →
    bisectLoop fuel a x lo hi = m := by
  intro fuel
  induction fuel with
  | zero =>
    intro lo hi h1 h2 h3 _ _
    simp only [bisectLoop]
    omega
  | succ fuel ih =>
    intro lo hi h1 h2 h3 h4 hchar
    simp only [bisectLoop]
    by_cases hlh : lo < hi
    · rw [if_pos hlh]
      have hmidlo : lo ≤ (lo + hi) / 2 := by omega
      have hmidhi : (lo + hi) / 2 < hi := by omega
      by_cases hm : a.getD ((lo + hi) / 2) 0 < x
      · rw [if_pos hm]
        have hlt : (lo + hi) / 2 < m := (hchar _ hmidlo hmidhi).mp hm
        exact ih ((lo + hi) / 2 + 1) hi (by omega) (by omega) h3 h4
          (fun i h5 h6 => hchar i (by omega) h6)
      · rw [if_neg hm]
        have hge : ¬((lo + hi) / 2 < m) := fun h => hm ((hchar _ hmidlo hmidhi).mpr h)
        exact ih lo ((lo + hi) / 2) (by omega) h2 (by omega) (by omega)
          (fun i h5 h6 => hchar i h5 (by omega))
    · rw [if_neg hlh]
      omega

theorem pairwise_getD_lt_iff (l : List Nat) (x : Nat) (h : l.Pairwise (· < ·)) :
    ∀ i, i < l.length → (l.getD i 0 < x ↔ i < l.countP (fun y => decide (y < x))) := by
  induction l with
  | nil => intro i hi; simp at hi
  | cons a l ih =>
    intro i hi
    rw [List.pairwise_cons] at h
    obtain ⟨ha, hl⟩ := h
    rw [List.countP_cons]
    by_cases hax : a < x
    · rw [if_pos (by simpa using hax)]
      cases i with
      | zero =>
        simp only [List.getD_cons_zero]
        constructor
        · intro _; omega
        · intro _; exact hax
      | succ i =>
        simp only [List.getD_cons_succ]
        rw [ih hl i (by simpa using hi)]
        omega
    · rw [if_neg (by simpa using hax)]
      have hcount : l.countP (fun y => decide (y < x)) = 0 := by
        rw [List.countP_eq_zero]
        intro y hy
        simp only [decide_eq_true_eq]
        have := ha y hy
        omega
      rw [hcount]
      cases i with
      | zero =>
        simp only [List.getD_cons_zero]
        constructor
        · intro h'; exact absurd h' hax
        · intro h'; omega
      | succ i =>
        simp only [List.getD_cons_succ]
        have hil : i < l.length := by simpa using hi
        have hmem : l.getD i 0 ∈ l := by
          rw [List.getD_eq_getElem _ _ hil]
          exact List.getElem_mem _
        have := ha _ hmem
        constructor
        · intro h'; omega
        · intro h'; omega

theorem bisect_left_sorted (l : List Nat) (x : Nat) (h : l.Pairwise (· < ·)) :
    bisect_left l x = l.countP (fun y => decide (y < x)) :=
  bisectLoop_eq l x _ l.length 0 l.length (by omega) (Nat.zero_le _)
    (List.countP_le_length _) (le_refl _)
    (fun i _ h2 => pairwise_getD_lt_iff l x h i h2)

theorem bisectLoop_bounds (a : List Nat) (x : Nat) :
    ∀ (fuel lo hi : Nat), lo ≤ hi →
      lo ≤ bisectLoop fuel a x lo hi ∧ bisectLoop fuel a x lo hi ≤ hi := by
  intro fuel
  induction fuel with
  | zero => intro lo hi h; simp only [bisectLoop]; omega
  | succ fuel ih =>
    intro lo hi h
    simp only [bisectLoop]
    by_cases hlh : lo < hi
    · rw [if_pos hlh]
      by_cases hm : a.getD ((lo + hi) / 2) 0 < x
      · rw [if_pos hm]
        have := ih ((lo + hi) / 2 + 1) hi (by omega)
        omega
      · rw [if_neg hm]
        have := ih lo ((lo + hi) / 2) (by omega)
        omega
    · rw [if_neg hlh]; omega

theorem bisect_left_le_length (l : List Nat) (x : Nat) : bisect_left l x ≤ l.length :=
  (bisectLoop_bounds l x l.length 0 l.length (Nat.zero_le _)).2

theorem keys_length (n : BTreeNode) : n.keys.length = n.len := by
  simp [BTreeNode.keys, BTreeNode.len]

theorem find_key_index_present (n : BTreeNode) (k : Nat) (i : Nat)
    (hs : n.keys.Pairwise (· < ·)) (hi : i < n.len) (hk : n.keys.getD i 0 = k) :
    n.find_key_index k = (i : Int) := by
  have hlen : n.keys.length = n.len := keys_length n
  have hnil : ¬(n.kvs = []) := by
    intro h
    rw [BTreeNode.len, h] at hi
    simp at hi
  have hm : bisect_left n.keys k = i := by
    rw [bisect_left_sorted _ _ hs]
    set m := n.keys.countP (fun y => decide (y < k)) with hmdef
    have hiff := pairwise_getD_lt_iff n.keys k hs
    have h1 : ¬(i < m) := by
      intro h
      have := (hiff i (by omega)).mpr h
      omega
    have h2 : ∀ j, j < i → j < m := by
      intro j hj
      apply (hiff j (by omega)).mp
      have hjk : n.keys.getD j 0 < n.keys.getD i 0 := by
        rw [List.getD_eq_getElem _ _ (by omega : j < n.keys.length),
          List.getD_eq_getElem _ _ (by omega : i < n.keys.length)]
        exact List.pairwise_iff_getElem.mp hs j i (by omega) (by omega) hj
      omega
    rcases Nat.eq_zero_or_pos i with h0 | h0
    · omega
    · have := h2 (i - 1) (by omega)
      omega
  rw [BTreeNode.find_key_index, if_neg hnil]
  simp only
  rw [hm, if_pos ⟨by omega, hk⟩]

theorem find_key_index_absent (n : BTreeNode) (k : Nat)
    (hs : n.keys.Pairwise (· < ·)) (hk : k ∉ n.keys) :
    n.find_key_index k =
      -(((n.keys.countP (fun y => decide (y < k)) : Nat) : Int) + 1) := by
  by_cases hnil : n.kvs = []
  · have : n.keys = [] := by simp [BTreeNode.keys, hnil]
    rw [BTreeNode.find_key_index, if_pos hnil, this]
    simp
  · have hm := bisect_left_sorted n.keys k hs
    set m := n.keys.countP (fun y => decide (y < k)) with hmdef
    rw [BTreeNode.find_key_index, if_neg hnil]
    simp only
    rw [hm]
    rw [if_neg]
    intro ⟨hlt, heq⟩
    apply hk
    rw [← heq]
    rw [List.getD_eq_getElem _ _ hlt]
    exact List.getElem_mem _

theorem get_child_index_present (n : BTreeNode) (k : Nat) (i : Nat)
    (hs : n.keys.Pairwise (· < ·)) (hi : i < n.len) (hk : n.keys.getD i 0 = k) :
    n.get_child_index k = (i : Int) + 1 := by
  rw [BTreeNode.get_child_index]
  simp only [find_key_index_present n k i hs hi hk]
  rw [if_pos (by omega)]

theorem get_child_index_absent (n : BTreeNode) (k : Nat)
    (hs : n.keys.Pairwise (· < ·)) (hk : k ∉ n.keys) :
    n.get_child_index k = ((n.keys.countP (fun y => decide (y < k)) : Nat) : Int) := by
  rw [BTreeNode.get_child_index]
  simp only [find_key_index_absent n k hs hk]
  rw [if_neg (by omega)]
  omega

theorem withKvs_len (n : BTreeNode) (ks : List KeyValuePair) :
    (n.withKvs ks).len = ks.length := by
  cases n; rfl

theorem withKvs_children (n : BTreeNode) (ks : List KeyValuePair) :
    (n.withKvs ks).children = n.children := by
  cases n; rfl

theorem withChildren_len (n : BTreeNode) (cs : List BTreeNode) :
    (n.withChildren cs).len = n.len := by
  cases n; rfl

theorem withChildren_children (n : BTreeNode) (cs : List BTreeNode) :
    (n.withChildren cs).children = cs := by
  cases n; rfl

theorem insert_key_value_len (n : BTreeNode) (k : Nat) (v : PyVal) :
    (n.insert_key_value k v).len = n.len + 1 := by
  rw [BTreeNode.insert_key_value]
  simp only [withKvs_len]
  have hpos : bisect_left n.keys k ≤ n.kvs.length := by
    have h := bisect_left_le_length n.keys k
    rw [keys_length] at h
    exact h
  rw [List.length_insertIdx _ _ hpos]
  rfl

theorem insert_key_value_children (n : BTreeNode) (k : Nat) (v : PyVal) :
    (n.insert_key_value k v).children = n.children := by
  rw [BTreeNode.insert_key_value]
  exact withKvs_children _ _

theorem remove_key_value_pair_len (n : BTreeNode) (i : Nat) (h : i < n.len) :
    ((n.remove_key_value_pair i).2).len = n.len - 1 := by
  rw [BTreeNode.remove_key_value_pair]
  simp only [withKvs_len, List.length_eraseIdx]
  rw [if_pos (show i < n.kvs.length from h)]
  rfl

theorem remove_key_value_pair_children (n : BTreeNode) (i : Nat) :
    ((n.remove_key_value_pair i).2).children = n.children := by
  rw [BTreeNode.remove_key_value_pair]
  exact withKvs_children _ _

/-- Claim C5: On a node whose keys are strictly increasing, `find_key_index`
returns the index of `k` when present and `-(insertionPoint+1)` when absent,
where the insertion point is the number of keys smaller than `k` (so `-1` on
an empty node, where the count is 0); `get_child_index` returns
`exactIndex + 1` when present and the insertion point when absent. -/
theorem c5_find_key_index_contract (n : BTreeNode) (k : Nat)
    (hs : n.keys.Pairwise (· < ·)) :
    (∀ i, i < n.len → n.keys.getD i 0 = k →
      n.find_key_index k = (i : Int) ∧ n.get_child_index k = (i : Int) + 1) ∧
    (k ∉ n.keys →
      n.find_key_index k =
        -(((n.keys.countP (fun y => decide (y < k)) : Nat) : Int) + 1) ∧
      n.get_child_index k = ((n.keys.countP (fun y => decide (y < k)) : Nat) : Int)) := by
  constructor
  · intro i hi hk
    exact ⟨find_key_index_present n k i hs hi hk, get_child_index_present n k i hs hi hk⟩
  · intro hk
    exact ⟨find_key_index_absent n k hs hk, get_child_index_absent n k hs hk⟩

/-- A concrete sorted node used to instantiate `c5_find_key_index_contract`. -/
def c5node : BTreeNode := .mk 2 true [⟨1, some 1⟩, ⟨3, some 3⟩] []

/-- Witness for C5 at the concrete node `[1, 3]`: key 3 sits at index 1, key 2
is absent with insertion point 1. -/
theorem c5_witness :
    c5node.find_key_index 3 = 1 ∧ c5node.get_child_index 3 = 2 ∧
    c5node.find_key_index 2 = -2 ∧ c5node.get_child_index 2 = 1 := by
  have hs : c5node.keys.Pairwise (· < ·) := by decide
  have h3 := (c5_find_key_index_contract c5node 3 hs).1 1 (by decide) (by decide)
  have h2 := (c5_find_key_index_contract c5node 2 hs).2 (by decide)
  exact ⟨h3.1, h3.2, h2.1.trans (by decide), h2.2.trans (by decide)⟩

/-- Claim C6: When underflow repair runs on an existing child of a structurally
coherent parent (`#children = #entries + 1`, at least one sibling available)
and the child is underflowing, `_fix_underflow` settles on exactly one action,
in the claimed priority order: borrow from a rich left sibling, else borrow
from a rich right sibling, else merge with the left sibling when one exists
and otherwise with the right. -/
theorem c6_fix_underflow_priority (t : Nat) (parent : BTreeNode) (ci : Nat)
    (hinv2 : parent.children.length = parent.len + 1)
    (hci : ci < parent.children.length)
    (htwo : 2 ≤ parent.children.length)
    (hu : (parent.get_child ci).len < t - 1) :
    (fix_underflow t parent ci).2 =
      (if 0 < ci ∧ t - 1 < (parent.get_child (ci - 1)).len then UAction.borrowLeft
       else if ci < parent.children.length - 1 ∧
           t - 1 < (parent.get_child (ci + 1)).len then UAction.borrowRight
       else if 0 < ci then UAction.mergeLeft
       else UAction.mergeRight) := by
  simp only [fix_underflow]
  rw [if_neg (by omega : ¬(ci ≥ parent.children.length ∨ parent.len = 0))]
  rw [if_neg (by omega : ¬((parent.get_child ci).len ≥ t - 1))]
  by_cases h1 : ci > 0 ∧ (parent.get_child (ci - 1)).len > t - 1
  · rw [if_pos h1, if_pos h1]
  · rw [if_neg h1, if_neg h1]
    by_cases h2 : ci < parent.children.length - 1 ∧ (parent.get_child (ci + 1)).len > t - 1
    · rw [if_pos h2, if_pos h2]
    · rw [if_neg h2, if_neg h2]
      by_cases h3 : 0 < ci
      · rw [if_pos (show ci > 0 ∧ parent.len > ci - 1 by omega), if_pos h3]
      · rw [if_neg (by omega : ¬(ci > 0 ∧ parent.len > ci - 1)), if_neg h3]
        rw [if_pos (show ci < parent.children.length - 1 ∧ parent.len > ci by omega)]

/-- A concrete underflow-repair scenario instantiating
`c6_fix_underflow_priority`: `t = 2`, the child at index 0 has lost its last
pair, no left sibling exists, the right sibling is at minimum occupancy, so
the repair merges with the right sibling. -/
def c6parent : BTreeNode :=
  .mk 2 false [⟨20, some 20⟩] [.mk 2 true [] [], .mk 2 true [⟨30, some 30⟩] []]

/-- Witness for C6 at the concrete parent: the chosen action is merge-right. -/
theorem c6_witness : (fix_underflow 2 c6parent 0).2 = UAction.mergeRight := by
  rw [c6_fix_underflow_priority 2 c6parent 0 (by decide) (by decide) (by decide) (by decide)]
  decide

theorem movePairs_len : ∀ (steps : Nat) (src dst : BTreeNode), src.len ≤ steps →
    ((movePairs steps src dst 0).2).len = dst.len + src.len := by
  intro steps
  induction steps with
  | zero =>
    intro src dst h
    simp only [movePairs]
    omega
  | succ steps ih =>
    intro src dst h
    simp only [movePairs]
    by_cases h0 : src.len > 0
    · rw [if_pos h0]
      have hrem : ((src.remove_key_value_pair 0).2).len = src.len - 1 :=
        remove_key_value_pair_len src 0 (by omega)
      rw [ih _ _ (by omega)]
      rw [insert_key_value_len, hrem]
      omega
    · rw [if_neg h0]
      show dst.len = dst.len + src.len
      omega

theorem moveChildren_len : ∀ (steps : Nat) (src dst : BTreeNode) (mi : Nat),
    ((moveChildren steps src dst mi).2).len = dst.len := by
  intro steps
  induction steps with
  | zero => intro src dst mi; simp only [moveChildren]
  | succ steps ih =>
    intro src dst mi
    simp only [moveChildren]
    by_cases h0 : src.children.length > mi
    · rw [if_pos h0]
      rw [ih]
      simp only [BTreeNode.insert_child, withChildren_len]
    · rw [if_neg h0]

theorem getD_set_self {α : Type} : ∀ (l : List α) (i : Nat) (a d : α), i < l.length →
    (l.set i a).getD i d = a := by
  intro l
  induction l with
  | nil => intro i a d h; simp at h
  | cons x l ih =>
    intro i a d h
    cases i with
    | zero => rfl
    | succ i => exact ih i a d (by simpa using h)

theorem getD_eraseIdx_lt {α : Type} : ∀ (l : List α) (i j : Nat) (d : α), j < i →
    (l.eraseIdx i).getD j d = l.getD j d := by
  intro l
  induction l with
  | nil => intro i j d h; simp [List.eraseIdx]
  | cons x l ih =>
    intro i j d h
    cases i with
    | zero => omega
    | succ i =>
      cases j with
      | zero => rfl
      | succ j => exact ih i j d (by omega)

theorem set_child_children (n : BTreeNode) (i : Nat) (c : BTreeNode) :
    (n.set_child i c).children = n.children.set i c := by
  rw [BTreeNode.set_child]
  exact withChildren_children _ _

theorem remove_child_children (n : BTreeNode) (i : Nat) :
    ((n.remove_child i).2).children = n.children.eraseIdx i := by
  rw [BTreeNode.remove_child]
  exact withChildren_children _ _

theorem set_merge_project (p M : BTreeNode) (ni : Nat)
    (hni : 0 < ni) (h : ni < p.children.length) :
    ((if ni < (p.set_child (ni - 1) M).children.length
        then ((p.set_child (ni - 1) M).remove_child ni).2
        else p.set_child (ni - 1) M).get_child (ni - 1)) = M := by
  have hlen : (p.set_child (ni - 1) M).children.length = p.children.length := by
    rw [set_child_children, List.length_set]
  rw [if_pos (by omega)]
  rw [BTreeNode.get_child, remove_child_children, set_child_children]
  rw [getD_eraseIdx_lt _ _ _ _ (by omega)]
  exact getD_set_self _ _ _ _ (by omega)

/-- Claim C7, amended.  When a merge (here with the left sibling) runs under
its actual trigger conditions — the child underflowing with fewer than `t-1`
pairs, the sibling at or below the minimum `t-1` — the merged node holds
exactly `len(sibling) + 1 + len(child)` pairs, which is at most `2t-2` and
hence within the `2t-1` capacity; `_cannot_safely_merge` is false there, so
its borrow fallback is unreachable.  (The originally claimed lower bound
`2(t-1)+1` does not hold: this code repairs after the deletion, when the
child has at most `t-2` pairs, see `c7_counterexample`.) -/
theorem c7_merge_capacity (t : Nat) (parent : BTreeNode) (ni : Nat)
    (hni : 0 < ni)
    (hsep : ni - 1 < parent.len)
    (hch : ni < parent.children.length)
    (hchild : (parent.get_child ni).len + 1 ≤ t - 1)
    (hsib : (parent.get_child (ni - 1)).len ≤ t - 1)
    (ht : 2 ≤ t) :
    cannot_safely_merge t (parent.get_child (ni - 1)) (parent.get_child ni) = false ∧
    ((merge_with_left_sibling t parent ni).get_child (ni - 1)).len =
      (parent.get_child (ni - 1)).len + 1 + (parent.get_child ni).len ∧
    (parent.get_child (ni - 1)).len + 1 + (parent.get_child ni).len ≤ 2 * t - 1 := by
  have hcsm : cannot_safely_merge t (parent.get_child (ni - 1)) (parent.get_child ni) =
      false := by
    simp only [cannot_safely_merge, decide_eq_false_iff_not]
    omega
  refine ⟨hcsm, ?_, by omega⟩
  unfold merge_with_left_sibling
  rw [if_neg (by omega : ¬(ni = 0 ∨ ni - 1 ≥ parent.len))]
  simp only
  rw [if_neg (by simp [hcsm])]
  rw [if_pos hsep]
  rw [set_merge_project _ _ _ hni (by simpa [remove_key_value_pair_children] using hch)]
  by_cases hleaf : (!(parent.get_child ni).is_leaf) = true
  · rw [if_pos hleaf]
    rw [moveChildren_len]
    rw [movePairs_len _ _ _ (le_refl _)]
    rw [insert_key_value_len]
  · rw [if_neg hleaf]
    simp only [Prod.mk.eta]
    rw [movePairs_len _ _ _ (le_refl _)]
    rw [insert_key_value_len]

/-! ## Concrete runs -/

/-- Keys 10,20,30,40,50,55,60 inserted in order into a fresh `t = 2` tree;
key 55 carries value `some 1`, every other key `k` carries `some k`.  After
these inserts the root is `[20,40]` and the child on the descent path for 55
is the full leaf `[50,55,60]` with 55 as its median. -/
def c1ops : List Op :=
  [.ins 10 (some 10), .ins 20 (some 20), .ins 30 (some 30), .ins 40 (some 40),
   .ins 50 (some 50), .ins 55 (some 1), .ins 60 (some 60)]

def c1base : Option BTreeIndex := runOps (mkTree 2) c1ops

/-- The re-insertion of key 55 with a fresh value on top of `c1base`. -/
def c1step : Option (BTreeIndex × PyVal) := c1base.bind (fun tr => tr.insert 55 (some 2))

/-- Python `c1ops` followed by the re-insertion of 55, as one operation sequence. -/
def c2ops : List Op := c1ops ++ [.ins 55 (some 2)]

def c2tree : Option BTreeIndex := runOps (mkTree 2) c2ops

/-- Deleting 55 from the corrupted tree. -/
def c3step : Option (BTreeIndex × PyVal) := c2tree.bind (fun tr => tr.delete 55)

/-- Claim C1 (violated by the code).  In `c1base` key 55 is present with value
`some 1` and sits as the median of the full child on the descent path.
Re-inserting it returns `none` instead of the previous value, grows `size`
from 7 to 8, and a subsequent search still yields the old value `some 1`
instead of `some 2`: the split promotes the median copy of 55 into the parent
after the parent was already probed, so the descent misses it and installs a
duplicate at a leaf. -/
theorem c1_update_bug :
    (c1base.map (·.size)) = some 7 ∧
    (c1base.bind (fun tr => tr.search 55)) = some (some 1) ∧
    (c1base.map (fun tr =>
      ((tr.root.get_child (tr.root.get_child_index 55).toNat).is_full,
       (tr.root.get_child (tr.root.get_child_index 55).toNat).keys.getD (2 - 1) 0))) =
      some (true, 55) ∧
    (c1step.map (·.2)) = some none ∧
    (c1step.map (·.1.size)) = some 8 ∧
    (c1step.bind (fun p => p.1.search 55)) = some (some 1) :=
  ⟨rfl, rfl, rfl, rfl, rfl, rfl⟩

/-- Claim C2 (violated by the code).  The spec's recursive invariant checker
accepts the tree after the seven distinct inserts of `c1ops`, but rejects the
tree after the eighth operation (the re-insert of 55): key 55 now occurs twice
(once in the root, once in a leaf under the separator 55), violating
invariant 3. -/
theorem c2_invariant_bug :
    (c1base.map (specInvariantsHold 2)) = some true ∧
    (c2tree.map (specInvariantsHold 2)) = some false ∧
    (c2tree.map (fun tr => (collectKeys (tr.size + 1) tr.root).count 55)) = some 2 :=
  ⟨rfl, rfl, rfl⟩

/-- Claim C3 (violated by the code).  On the reachable state `c2tree` (which
holds two copies of key 55), `delete 55` removes only the leaf copy: it
returns `some 1`, size drops from 8 to 7, but `search 55` still answers
`some 2` instead of absent. -/
theorem c3_delete_bug :
    (c2tree.bind (fun tr => tr.search 55)) = some (some 1) ∧
    (c3step.map (·.2)) = some (some 1) ∧
    (c3step.map (·.1.size)) = some 7 ∧
    (c3step.bind (fun p => p.1.search 55)) = some (some 2) :=
  ⟨rfl, rfl, rfl, rfl⟩

/-- Claim C4 (violated by the code).  After `c2ops` the most recent insert of
key 55 bound it to `some 2` and no delete follows, yet `search 55` returns
`some 1`. -/
theorem c4_round_trip_bug :
    (c2tree.bind (fun tr => tr.search 55)) = some (some 1) ∧
    (c2tree.bind (fun tr => tr.search 55)) ≠ some (some 2) :=
  ⟨rfl, by decide⟩

/-- The parent state on which a deletion-triggered merge runs with `t = 2`:
the child at index 0 has just lost its only pair (this is the root of the
tree `[20 | [10] [30]]` right after `10` was removed from its leaf, as arises
from inserting 10,20,30,40 and deleting 40 then 10). -/
def c7cexParent : BTreeNode :=
  .mk 2 false [⟨20, some 20⟩] [.mk 2 true [] [], .mk 2 true [⟨30, some 30⟩] []]

/-- The operation sequence that reaches the `c7cexParent` merge through the
public interface. -/
def c7ops : List Op :=
  [.ins 10 (some 10), .ins 20 (some 20), .ins 30 (some 30), .ins 40 (some 40),
   .del 40, .del 10]

/-- Claim C7 counterexample:  This underflow repair merges (with the right
sibling) and the merged node holds 2 entries — strictly fewer than the
claimed lower bound `2(t-1)+1 = 3` for `t = 2`.  The same merged node is the
final root of the public-operation run `c7ops`. -/
theorem c7_counterexample :
    (fix_underflow 2 c7cexParent 0).2 = UAction.mergeRight ∧
    ((fix_underflow 2 c7cexParent 0).1.get_child 0).len = 2 ∧
    ¬(2 * (2 - 1) + 1 ≤ ((fix_underflow 2 c7cexParent 0).1.get_child 0).len) ∧
    ((runOps (mkTree 2) c7ops).map (fun tr => tr.root.keys)) = some [20, 30] := by
  refine ⟨rfl, rfl, by decide, rfl⟩

/-- A merge-with-left configuration instantiating `c7_merge_capacity`:
`t = 2`, separator 20 between the minimal sibling `[10]` and the empty
underflowing child. -/
def c7parentA : BTreeNode :=
  .mk 2 false [⟨20, some 20⟩, ⟨40, some 40⟩]
    [.mk 2 true [⟨10, some 10⟩] [], .mk 2 true [] [], .mk 2 true [⟨50, some 50⟩] []]

/-- Witness for the amended C7: at `c7parentA`, merging child 1 into its left
sibling is safe (`_cannot_safely_merge` is false) and yields a node with
`1 + 1 + 0 = 2 ≤ 2t-1` entries. -/
theorem c7_witness :
    cannot_safely_merge 2 (c7parentA.get_child 0) (c7parentA.get_child 1) = false ∧
    ((merge_with_left_sibling 2 c7parentA 1).get_child 0).len = 2 := by
  have h := c7_merge_capacity 2 c7parentA 1 (by decide) (by decide) (by decide)
    (by decide) (by decide) (by decide)
  exact ⟨h.1, h.2.1.trans (by decide)⟩

/-- Claim C8 (violated by the code).  Every construction with valid arguments
fails with the `TypeError` raised by the parenthesis-less `super.__setattr__`;
only the invalid-argument paths raise the documented `ValueError`. -/
theorem c8_construction_bug :
    KeyValuePair.init (some 1) (some 1) = Except.error PyError.typeErrorSuperSetattr ∧
    BTreeNode.init 2 true = Except.error PyError.typeErrorSuperSetattr ∧
    BTreeIndex.init 2 = Except.error PyError.typeErrorSuperSetattr ∧
    BTreeIndex.init 3 = Except.error PyError.typeErrorSuperSetattr ∧
    KeyValuePair.init none none = Except.error PyError.valueError ∧
    BTreeNode.init 1 true = Except.error PyError.valueError ∧
    BTreeIndex.init 1 = Except.error PyError.valueError :=
  ⟨rfl, rfl, rfl, rfl, rfl, rfl, rfl⟩

/-- Claim C9:  The `is_leaf` property setter's body is a self-call with the same
arguments (first conjunct: the defining equation), so for every finite fuel
the call fails to terminate normally (`none`), and consequently never mutates
the backing `_is_leaf` field. -/
theorem c9_is_leaf_setter_diverges :
    (∀ (fuel : Nat) (n : BTreeNode) (v : Bool),
      is_leaf_setter (fuel + 1) n v = is_leaf_setter fuel n v) ∧
    (∀ (fuel : Nat) (n : BTreeNode) (v : Bool), is_leaf_setter fuel n v = none) := by
  refine ⟨fun fuel n v => rfl, fun fuel => ?_⟩
  induction fuel with
  | zero => intro n v; rfl
  | succ fuel ih => intro n v; exact ih n v

theorem find_key_index_singleton (k : Nat) (w : PyVal) :
    (BTreeNode.mk 2 true [⟨k, w⟩] []).find_key_index k = 0 := by
  have hkeys : (BTreeNode.mk 2 true [⟨k, w⟩] []).keys = [k] := rfl
  apply find_key_index_present _ _ 0
  · rw [hkeys]
    simp
  · show 0 < 1
    omega
  · rfl

theorem searchLoop_found_at_zero (fuel : Nat) (n : BTreeNode) (k : Nat)
    (h : n.find_key_index k = 0) :
    BTreeIndex.searchLoop (fuel + 1) n k = some (n.get_value 0) := by
  simp only [BTreeIndex.searchLoop, h]
  norm_num

theorem insertLoop_singleton (k : Nat) (w v : PyVal) :
    BTreeIndex.insertLoop 2 (1 + 1) (BTreeNode.mk 2 true [⟨k, w⟩] []) k v =
      some ((BTreeNode.mk 2 true [⟨k, w⟩] []).set_value 0 v,
        (BTreeNode.mk 2 true [⟨k, w⟩] []).get_value 0, false) := by
  simp only [BTreeIndex.insertLoop, find_key_index_singleton k w]
  norm_num

theorem insert_update_singleton (k : Nat) (w v : PyVal) :
    BTreeIndex.insert ⟨2, .mk 2 true [⟨k, w⟩] [], 1⟩ k v =
      some (⟨2, .mk 2 true [⟨k, v⟩] [], 1⟩, w) := by
  rw [BTreeIndex.insert]
  rw [if_neg (by exact fun h => Bool.false_ne_true h)]
  rw [if_neg (by exact fun h => Bool.false_ne_true h)]
  simp only [insertLoop_singleton]
  rfl

/-- Claim C10:  `contains` is true exactly when `search` yields a non-`None`
value — so a stored Python `None` is indistinguishable from absence.  In
particular, inserting `(k, None)` into a fresh tree stores the key (size 1),
yet both `contains` and `search` report it absent, and a follow-up
`insert (k, v)` returns `None` ("no previous value") while merely updating
the stored pair (size still 1, search now returns `v`). -/
theorem c10_null_value_conflation :
    (∀ (tr : BTreeIndex) (k : Nat),
      tr.contains k = some true ↔ ∃ v : Nat, tr.search k = some (some v)) ∧
    (∀ (k v : Nat), ∃ tr1 tr2 : BTreeIndex,
      (mkTree 2).insert k none = some (tr1, none) ∧
      tr1.size = 1 ∧
      tr1.contains k = some false ∧
      tr1.search k = some none ∧
      tr1.insert k (some v) = some (tr2, none) ∧
      tr2.size = 1 ∧
      tr2.search k = some (some v)) := by
  constructor
  · intro tr k
    rw [BTreeIndex.contains]
    cases h : tr.search k with
    | none => simp
    | some val =>
      cases val with
      | none => simp
      | some w => simp
  · intro k v
    refine ⟨⟨2, .mk 2 true [⟨k, none⟩] [], 1⟩, ⟨2, .mk 2 true [⟨k, some v⟩] [], 1⟩,
      rfl, rfl, ?_, ?_, ?_, rfl, ?_⟩
    · rw [BTreeIndex.contains, BTreeIndex.search]
      rw [if_neg (by simp [BTreeIndex.is_empty])]
      rw [searchLoop_found_at_zero _ _ _ (find_key_index_singleton k none)]
      rfl
    · rw [BTreeIndex.search]
      rw [if_neg (by simp [BTreeIndex.is_empty])]
      exact searchLoop_found_at_zero _ _ _ (find_key_index_singleton k none)
    · exact insert_update_singleton k none (some v)
    · rw [BTreeIndex.search]
      rw [if_neg (by simp [BTreeIndex.is_empty])]
      exact searchLoop_found_at_zero _ _ _ (find_key_index_singleton k (some v))
